import Mathlib

/-!
Verification of the packages store of `modules/desktop/src/libs/stores/pkgs.ts`
(ossapp). The store keeps a list of GUI package records, initialises it from a
fetched catalog cross-referenced with the installed-package list, fuzzy-searches
it, and drives a synthetic install-progress sequence.

The embedding is shallow: the mutable Svelte store becomes explicit state
passing over `List GUIPackage`, JavaScript numbers become `ℚ`, thrown
exceptions become `Except` values, and the fire-and-forget effects (logging,
analytics, the interval timer) are reflected as fields of explicit outcome
records.
-/

namespace Ossapp

/-- Modelled from the spec: the `PackageStates` enum of `libs/types.ts`
(not in the sources under review); `pkgs.ts` uses exactly these five states. -/
inductive PackageStates where
  | AVAILABLE
  | INSTALLED
  | INSTALLING
  | UPDATING
  | NEEDS_UPDATE
deriving DecidableEq

/-- Modelled from the spec: a bottle's metadata; `pkgs.ts` only reads `bytes`. -/
structure Bottle where
  bytes : Nat
deriving DecidableEq

/-- Modelled from the spec: the catalog `Package` record of `@tea/ui/types`;
the fields are the ones `pkgs.ts` reads (search keys `name`, `full_name`,
`desc`, `categories`, plus `version`, `homepage` and `bottles`). -/
structure Package where
  name : String
  full_name : String
  desc : String
  categories : List String
  version : String
  homepage : String
  bottles : List Bottle
deriving DecidableEq

/-- Modelled from the spec: `GUIPackage` of `libs/types.ts` — a catalog
`Package` extended with the GUI-only fields `pkgs.ts` writes. -/
structure GUIPackage where
  name : String
  full_name : String
  desc : String
  categories : List String
  version : String
  homepage : String
  bottles : List Bottle
  state : PackageStates
  installed_versions : List String
  install_progress_percentage : ℚ
  synced : Bool
deriving DecidableEq

/-- A `Partial<GUIPackage>` props object: every field optional.  Absent fields
are `none`. -/
structure PkgProps where
  name : Option String := none
  full_name : Option String := none
  desc : Option String := none
  categories : Option (List String) := none
  version : Option String := none
  homepage : Option String := none
  bottles : Option (List Bottle) := none
  state : Option PackageStates := none
  installed_versions : Option (List String) := none
  install_progress_percentage : Option ℚ := none
  synced : Option Bool := none
deriving DecidableEq

/-- The object spread `{ ...pkgs[i], ...props }`: a field present in `props`
wins, otherwise the old value is kept. -/
def mergePkg (pkg : GUIPackage) (props : PkgProps) : GUIPackage :=
  { name := props.name.getD pkg.name
    full_name := props.full_name.getD pkg.full_name
    desc := props.desc.getD pkg.desc
    categories := props.categories.getD pkg.categories
    version := props.version.getD pkg.version
    homepage := props.homepage.getD pkg.homepage
    bottles := props.bottles.getD pkg.bottles
    state := props.state.getD pkg.state
    installed_versions := props.installed_versions.getD pkg.installed_versions
    install_progress_percentage :=
      props.install_progress_percentage.getD pkg.install_progress_percentage
    synced := props.synced.getD pkg.synced }

/-- `updatePackage(full_name, props)` of `pkgs.ts`: `findIndex` the first
record whose `full_name` matches, and replace it by the spread
`{ ...pkgs[i], ...props }`; no match leaves the list untouched.  The
recursion replaces exactly the first match, as `findIndex` + assignment does. -/
def updatePackage (full_name : String) (props : PkgProps) :
    List GUIPackage → List GUIPackage
  | [] => []
  | p :: ps =>
      if p.full_name = full_name then mergePkg p props :: ps
      else p :: updatePackage full_name props ps

/-- The index `findIndex((pkg) => pkg.full_name === full_name)` returns,
as an `Option` (the source's `-1` becomes `none`). -/
def firstMatchIdx (full_name : String) : List GUIPackage → Option Nat
  | [] => none
  | p :: ps =>
      if p.full_name = full_name then some 0
      else (firstMatchIdx full_name ps).map (· + 1)

theorem updatePackage_length (full_name : String) (props : PkgProps) :
    ∀ pkgs : List GUIPackage,
      (updatePackage full_name props pkgs).length = pkgs.length := by
  intro pkgs
  induction pkgs with
  | nil => rfl
  | cons p ps ih =>
      by_cases h : p.full_name = full_name <;>
        simp [updatePackage, h, ih]

theorem updatePackage_of_no_match (full_name : String) (props : PkgProps)
    (pkgs : List GUIPackage) (h : ∀ p ∈ pkgs, p.full_name ≠ full_name) :
    updatePackage full_name props pkgs = pkgs := by
  induction pkgs with
  | nil => rfl
  | cons p ps ih =>
      have hp : p.full_name ≠ full_name := h p (List.mem_cons_self p ps)
      simp only [updatePackage, if_neg hp]
      exact congrArg (p :: ·) (ih fun q hq => h q (List.mem_cons_of_mem p hq))

theorem firstMatchIdx_eq_none_iff (full_name : String) (pkgs : List GUIPackage) :
    firstMatchIdx full_name pkgs = none ↔ ∀ p ∈ pkgs, p.full_name ≠ full_name := by
  induction pkgs with
  | nil => simp [firstMatchIdx]
  | cons p ps ih =>
      by_cases h : p.full_name = full_name
      · simp [firstMatchIdx, h]
      · simp [firstMatchIdx, h, ih]

theorem updatePackage_getElem?_at_match (full_name : String) (props : PkgProps) :
    ∀ (pkgs : List GUIPackage) (i : Nat),
      firstMatchIdx full_name pkgs = some i →
        (updatePackage full_name props pkgs)[i]? =
          (pkgs[i]?).map (fun p => mergePkg p props) := by
  intro pkgs
  induction pkgs with
  | nil => intro i h; simp [firstMatchIdx] at h
  | cons p ps ih =>
      intro i h
      by_cases hp : p.full_name = full_name
      · simp only [firstMatchIdx, if_pos hp, Option.some.injEq] at h
        subst h
        simp [updatePackage, if_pos hp]
      · simp only [firstMatchIdx, if_neg hp, Option.map_eq_some'] at h
        obtain ⟨j, hj, rfl⟩ := h
        simp [updatePackage, if_neg hp, ih j hj]

theorem updatePackage_getElem?_off_match (full_name : String) (props : PkgProps) :
    ∀ (pkgs : List GUIPackage) (j : Nat),
      firstMatchIdx full_name pkgs ≠ some j →
        (updatePackage full_name props pkgs)[j]? = pkgs[j]? := by
  intro pkgs
  induction pkgs with
  | nil => intro j _; rfl
  | cons p ps ih =>
      intro j hj
      by_cases hp : p.full_name = full_name
      · have h0 : j ≠ 0 := by
          intro h; exact hj (by simp [firstMatchIdx, hp, h])
        obtain ⟨k, rfl⟩ := Nat.exists_eq_succ_of_ne_zero h0
        simp [updatePackage, if_pos hp]
      · cases j with
        | zero => simp [updatePackage, if_neg hp]
        | succ k =>
            have hk : firstMatchIdx full_name ps ≠ some k := by
              intro h
              exact hj (by simp [firstMatchIdx, if_neg hp, h])
            simp [updatePackage, if_neg hp, ih k hk]

/-- C3: `updatePackage(full_name, props)` replaces the first record whose
`full_name` matches with the merge `{ ...record, ...props }`, leaves every
other record and the list length unchanged, and leaves the list unchanged when
no record matches. -/
theorem updatePackage_first_match_spec (full_name : String) (props : PkgProps)
    (pkgs : List GUIPackage) :
    (updatePackage full_name props pkgs).length = pkgs.length ∧
    ((∀ p ∈ pkgs, p.full_name ≠ full_name) →
      updatePackage full_name props pkgs = pkgs) ∧
    (∀ i : Nat, firstMatchIdx full_name pkgs = some i →
      (updatePackage full_name props pkgs)[i]? =
        (pkgs[i]?).map (fun p => mergePkg p props)) ∧
    (∀ j : Nat, firstMatchIdx full_name pkgs ≠ some j →
      (updatePackage full_name props pkgs)[j]? = pkgs[j]?) := by
  refine ⟨updatePackage_length full_name props pkgs,
    updatePackage_of_no_match full_name props pkgs,
    fun i hi => updatePackage_getElem?_at_match full_name props pkgs i hi,
    fun j hj => updatePackage_getElem?_off_match full_name props pkgs j hj⟩

/-- A concrete two-record list exercising C3: the first matching record is
replaced by the merge, the other record survives, and a miss is a no-op. -/
def pkgA : GUIPackage :=
  { name := "alpha", full_name := "alpha.sh", desc := "first", categories := []
    version := "1.0.0", homepage := "https://alpha.sh", bottles := []
    state := PackageStates.AVAILABLE, installed_versions := []
    install_progress_percentage := 0, synced := false }

def pkgB : GUIPackage :=
  { name := "beta", full_name := "beta.sh", desc := "second", categories := []
    version := "2.0.0", homepage := "https://beta.sh", bottles := []
    state := PackageStates.AVAILABLE, installed_versions := []
    install_progress_percentage := 0, synced := false }

theorem updatePackage_first_match_spec_witness :
    (updatePackage "beta.sh" { state := some PackageStates.INSTALLED }
        [pkgA, pkgB])[1]? =
      ([pkgA, pkgB][1]?).map
        (fun p => mergePkg p { state := some PackageStates.INSTALLED }) :=
  (updatePackage_first_match_spec "beta.sh"
      { state := some PackageStates.INSTALLED } [pkgA, pkgB]).2.2.1 1 (by decide)

/-- Modelled from the spec: the `InstalledPackage` record of `libs/types.ts`;
`pkgs.ts` reads `full_name` and `installed_versions`. -/
structure InstalledPackage where
  full_name : String
  installed_versions : List String
deriving DecidableEq

/-- `{ ...p, state: PackageStates.AVAILABLE }` applied to a catalog entry in
`init`; the GUI-only fields start at their absent/zero values. -/
def toGUIPackage (p : Package) : GUIPackage :=
  { name := p.name, full_name := p.full_name, desc := p.desc
    categories := p.categories, version := p.version, homepage := p.homepage
    bottles := p.bottles, state := PackageStates.AVAILABLE
    installed_versions := [], install_progress_percentage := 0, synced := false }

/-- The props `init` passes to `updatePackage` for an installed package: its
`installed_versions`, and `INSTALLED` when `pkg.version ===
iPkg.installed_versions[0]`, else `NEEDS_UPDATE`. -/
def crossRefProps (pkg : GUIPackage) (iPkg : InstalledPackage) : PkgProps :=
  { installed_versions := some iPkg.installed_versions
    state := some (if iPkg.installed_versions.head? = some pkg.version
      then PackageStates.INSTALLED else PackageStates.NEEDS_UPDATE) }

/-- One iteration of `init`'s `for (const [i, iPkg] of installedPkgs.entries())`
loop: find the catalog record with the installed package's `full_name` and, if
present, update it. -/
def crossRefStep (acc : List GUIPackage) (iPkg : InstalledPackage) :
    List GUIPackage :=
  match acc.find? (fun p => p.full_name == iPkg.full_name) with
  | none => acc
  | some pkg => updatePackage pkg.full_name (crossRefProps pkg iPkg) acc

/-- `init`'s whole annotation loop over the installed-package list.  The loop
reads and writes the same array, so the fold threads the updated list. -/
def crossReference (gui : List GUIPackage) (installed : List InstalledPackage) :
    List GUIPackage :=
  installed.foldl crossRefStep gui

/-- The package list `init` leaves in the store: the catalog mapped to
`AVAILABLE` GUI records and, when `getInstalledPackages` succeeded,
cross-referenced with its result; when it threw, the `catch` only logs and the
list stays as set before the `try`. -/
def initPackages (catalog : List Package)
    (installedRes : Except String (List InstalledPackage)) : List GUIPackage :=
  match installedRes with
  | Except.error _ => catalog.map toGUIPackage
  | Except.ok installed => crossReference (catalog.map toGUIPackage) installed

theorem updatePackage_map_full_name (full_name : String) (props : PkgProps)
    (hprops : props.full_name = none) :
    ∀ pkgs : List GUIPackage,
      (updatePackage full_name props pkgs).map GUIPackage.full_name =
        pkgs.map GUIPackage.full_name := by
  intro pkgs
  induction pkgs with
  | nil => rfl
  | cons p ps ih =>
      by_cases h : p.full_name = full_name
      · simp [updatePackage, h, mergePkg, hprops]
      · simp [updatePackage, h, ih]

theorem updatePackage_getElem?_nodup (full_name : String) (props : PkgProps) :
    ∀ (pkgs : List GUIPackage),
      (pkgs.map GUIPackage.full_name).Nodup →
      ∀ (i : Nat) (x : GUIPackage), pkgs[i]? = some x →
        (updatePackage full_name props pkgs)[i]? =
          if x.full_name = full_name then some (mergePkg x props) else some x := by
  intro pkgs
  induction pkgs with
  | nil => intro _ i x hx; simp at hx
  | cons p ps ih =>
      intro hnd i x hx
      simp only [List.map_cons, List.nodup_cons] at hnd
      cases i with
      | zero =>
          have hpx : p = x := by simpa using hx
          subst hpx
          by_cases h : p.full_name = full_name <;>
            simp [updatePackage, h]
      | succ k =>
          simp only [List.getElem?_cons_succ] at hx
          have hxps : x ∈ ps := List.getElem?_mem hx
          by_cases h : p.full_name = full_name
          · have hxfn : x.full_name ≠ full_name := by
              intro hcontra
              exact hnd.1 (h ▸ hcontra ▸ List.mem_map_of_mem GUIPackage.full_name hxps)
            simp [updatePackage, h, hxfn, hx]
          · simp [updatePackage, h, ih hnd.2 k x hx]

theorem crossRefStep_length (acc : List GUIPackage) (iPkg : InstalledPackage) :
    (crossRefStep acc iPkg).length = acc.length := by
  unfold crossRefStep
  cases acc.find? (fun p => p.full_name == iPkg.full_name) with
  | none => rfl
  | some pkg => exact updatePackage_length pkg.full_name (crossRefProps pkg iPkg) acc

theorem crossRefStep_map_full_name (acc : List GUIPackage)
    (iPkg : InstalledPackage) :
    (crossRefStep acc iPkg).map GUIPackage.full_name =
      acc.map GUIPackage.full_name := by
  unfold crossRefStep
  cases acc.find? (fun p => p.full_name == iPkg.full_name) with
  | none => rfl
  | some pkg => exact updatePackage_map_full_name pkg.full_name _ rfl acc

theorem mergePkg_crossRefProps_full_name (x pkg : GUIPackage)
    (iPkg : InstalledPackage) :
    (mergePkg x (crossRefProps pkg iPkg)).full_name = x.full_name := rfl

theorem crossRefStep_getElem? (acc : List GUIPackage) (iPkg : InstalledPackage)
    (hnd : (acc.map GUIPackage.full_name).Nodup)
    (i : Nat) (x : GUIPackage) (hx : acc[i]? = some x) :
    (crossRefStep acc iPkg)[i]? =
      if x.full_name = iPkg.full_name
      then some (mergePkg x (crossRefProps x iPkg)) else some x := by
  have hxmem : x ∈ acc := List.getElem?_mem hx
  unfold crossRefStep
  cases hfind : acc.find? (fun p => p.full_name == iPkg.full_name) with
  | none =>
      have hnone := List.find?_eq_none.mp hfind x hxmem
      simp only [beq_iff_eq] at hnone
      simp [hnone, hx]
  | some pkg =>
      have hpkgmem : pkg ∈ acc := List.mem_of_find?_eq_some hfind
      have hpkgname : pkg.full_name = iPkg.full_name := by
        have := List.find?_some hfind
        simpa [beq_iff_eq] using this
      rw [updatePackage_getElem?_nodup pkg.full_name _ acc hnd i x hx, hpkgname]
      by_cases h : x.full_name = iPkg.full_name
      · have hxpkg : x = pkg :=
          List.inj_on_of_nodup_map hnd hxmem hpkgmem (h.trans hpkgname.symm)
        rw [if_pos h, if_pos h, ← hxpkg]
      · rw [if_neg h, if_neg h]

theorem crossReference_length :
    ∀ (installed : List InstalledPackage) (acc : List GUIPackage),
      (crossReference acc installed).length = acc.length := by
  intro installed
  induction installed with
  | nil => intro acc; rfl
  | cons iPkg rest ih =>
      intro acc
      show (crossReference (crossRefStep acc iPkg) rest).length = acc.length
      rw [ih (crossRefStep acc iPkg), crossRefStep_length]

theorem crossReference_getElem? :
    ∀ (installed : List InstalledPackage) (acc : List GUIPackage),
      (acc.map GUIPackage.full_name).Nodup →
      (installed.map InstalledPackage.full_name).Nodup →
      ∀ (i : Nat) (x : GUIPackage), acc[i]? = some x →
        (crossReference acc installed)[i]? =
          match installed.find? (fun ip => ip.full_name == x.full_name) with
          | none => some x
          | some ip => some (mergePkg x (crossRefProps x ip)) := by
  intro installed
  induction installed with
  | nil => intro acc _ _ i x hx; simpa [crossReference] using hx
  | cons iPkg rest ih =>
      intro acc hnd hins i x hx
      simp only [List.map_cons, List.nodup_cons] at hins
      have hnd' : ((crossRefStep acc iPkg).map GUIPackage.full_name).Nodup := by
        rw [crossRefStep_map_full_name]; exact hnd
      have hstep := crossRefStep_getElem? acc iPkg hnd i x hx
      show (crossReference (crossRefStep acc iPkg) rest)[i]? = _
      by_cases h : x.full_name = iPkg.full_name
      · rw [if_pos h] at hstep
        have := ih (crossRefStep acc iPkg) hnd' hins.2 i
          (mergePkg x (crossRefProps x iPkg)) hstep
        rw [this]
        have hrest : rest.find?
            (fun ip => ip.full_name == (mergePkg x (crossRefProps x iPkg)).full_name)
            = none := by
          rw [List.find?_eq_none]
          intro q hq
          rw [mergePkg_crossRefProps_full_name, h, beq_iff_eq]
          intro hcontra
          exact hins.1 (hcontra ▸ List.mem_map_of_mem InstalledPackage.full_name hq)
        rw [hrest]
        have hcons : (iPkg :: rest).find? (fun ip => ip.full_name == x.full_name)
            = some iPkg := by
          simp [List.find?_cons, h]
        rw [hcons]
      · rw [if_neg h] at hstep
        have := ih (crossRefStep acc iPkg) hnd' hins.2 i x hstep
        rw [this]
        have hcons : (iPkg :: rest).find? (fun ip => ip.full_name == x.full_name)
            = rest.find? (fun ip => ip.full_name == x.full_name) := by
          have : ¬ (iPkg.full_name == x.full_name) = true := by
            simp only [beq_iff_eq]
            exact fun hc => h hc.symm
          simp [List.find?_cons, this]
        rw [hcons]

theorem toGUIPackage_full_name (p : Package) :
    (toGUIPackage p).full_name = p.full_name := rfl

/-- C1: after `init` completes on a catalog (distinct `full_name`s) and an
installed list (distinct `full_name`s), a catalog package with a matching
installed entry carries that entry's `installed_versions` and is `INSTALLED`
when the catalog version equals the first installed version, `NEEDS_UPDATE`
otherwise; a catalog package with no installed entry stays `AVAILABLE`. -/
theorem init_cross_reference_spec (catalog : List Package)
    (installed : List InstalledPackage)
    (hc : (catalog.map Package.full_name).Nodup)
    (hins : (installed.map InstalledPackage.full_name).Nodup) :
    (initPackages catalog (Except.ok installed)).length = catalog.length ∧
    ∀ (i : Nat) (c : Package), catalog[i]? = some c →
      (initPackages catalog (Except.ok installed))[i]? = some (
        match installed.find? (fun ip => ip.full_name == c.full_name) with
        | none => toGUIPackage c
        | some ip =>
            { toGUIPackage c with
                installed_versions := ip.installed_versions
                state := if ip.installed_versions.head? = some c.version
                  then PackageStates.INSTALLED else PackageStates.NEEDS_UPDATE }) := by
  have hmap : ((catalog.map toGUIPackage).map GUIPackage.full_name).Nodup := by
    rw [List.map_map]
    exact hc
  constructor
  · show (crossReference (catalog.map toGUIPackage) installed).length = _
    rw [crossReference_length, List.length_map]
  · intro i c hc'
    have hx : (catalog.map toGUIPackage)[i]? = some (toGUIPackage c) := by
      rw [List.getElem?_map, hc']
      rfl
    have := crossReference_getElem? installed (catalog.map toGUIPackage)
      hmap hins i (toGUIPackage c) hx
    show (crossReference (catalog.map toGUIPackage) installed)[i]? = _
    rw [this]
    cases hfind : installed.find?
        (fun ip => ip.full_name == (toGUIPackage c).full_name) with
    | none =>
        rw [toGUIPackage_full_name] at hfind
        rw [hfind]
    | some ip =>
        rw [toGUIPackage_full_name] at hfind
        rw [hfind]
        simp [mergePkg, crossRefProps, toGUIPackage]

/-- Concrete catalog and installed list for the C1 witness: `alpha.sh` is
installed at an older version, `beta.sh` is not installed. -/
def cpkgA : Package :=
  { name := "alpha", full_name := "alpha.sh", desc := "first", categories := []
    version := "1.0.0", homepage := "https://alpha.sh", bottles := [] }

def cpkgB : Package :=
  { name := "beta", full_name := "beta.sh", desc := "second", categories := []
    version := "2.0.0", homepage := "https://beta.sh", bottles := [] }

def catalogW : List Package := [cpkgA, cpkgB]

def installedW : List InstalledPackage := [⟨"alpha.sh", ["0.9.0"]⟩]

theorem init_cross_reference_spec_witness :
    (initPackages catalogW (Except.ok installedW)).length = catalogW.length ∧
    (initPackages catalogW (Except.ok installedW))[0]? = some (
      match installedW.find? (fun ip => ip.full_name == cpkgA.full_name) with
      | none => toGUIPackage cpkgA
      | some ip =>
          { toGUIPackage cpkgA with
              installed_versions := ip.installed_versions
              state := if ip.installed_versions.head? = some cpkgA.version
                then PackageStates.INSTALLED else PackageStates.NEEDS_UPDATE }) := by
  have h := init_cross_reference_spec catalogW installedW (by decide) (by decide)
  exact ⟨h.1, h.2 0 cpkgA rfl⟩

/-- C4: when `getInstalledPackages` throws, `init` catches, and the store keeps
the catalog exactly as set before the `try`: every package `AVAILABLE`; the
function's result is total (no exception escapes the model). -/
theorem init_error_fallback (catalog : List Package) (err : String) :
    initPackages catalog (Except.error err) = catalog.map toGUIPackage ∧
    ∀ p ∈ initPackages catalog (Except.error err),
      p.state = PackageStates.AVAILABLE := by
  refine ⟨rfl, ?_⟩
  intro p hp
  simp only [initPackages, List.mem_map] at hp
  obtain ⟨c, _, rfl⟩ := hp
  rfl

theorem init_error_fallback_witness :
    toGUIPackage cpkgB ∈ initPackages catalogW (Except.error "boom") ∧
    (toGUIPackage cpkgB).state = PackageStates.AVAILABLE :=
  ⟨by decide,
    (init_error_fallback catalogW "boom").2 (toGUIPackage cpkgB) (by decide)⟩

/-! ### The fake install-progress loader (`withFakeLoader`) -/

/-- `const assumedDlSpeedMb = 1024 * 1024 * 3` (bytes per second). -/
def assumedDlSpeedMb : ℚ := 1024 * 1024 * 3

/-- `pkg?.bottles?.length ? pkg.bottles[0].bytes : assumedDlSpeedMb * 10`. -/
def loaderSize (pkg : GUIPackage) : ℚ :=
  match pkg.bottles with
  | [] => assumedDlSpeedMb * 10
  | b :: _ => (b.bytes : ℚ)

/-- `const eta = size / assumedDlSpeedMb`. -/
def loaderEta (pkg : GUIPackage) : ℚ := loaderSize pkg / assumedDlSpeedMb

/-- `const increment = 1 / eta / 10`. -/
def loaderIncrement (pkg : GUIPackage) : ℚ := 1 / loaderEta pkg / 10

/-- The value of `fakeLoadingProgress` after `n` timer ticks:
`fakeLoadingProgress = 1` at the start, and each tick performs
`fakeLoadingProgress += (100 - fakeLoadingProgress) * increment`. -/
def fakeProgress (pkg : GUIPackage) : Nat → ℚ
  | 0 => 1
  | n + 1 => fakeProgress pkg n + (100 - fakeProgress pkg n) * loaderIncrement pkg

theorem fakeProgress_closed_form (pkg : GUIPackage) (n : Nat) :
    fakeProgress pkg n = 100 - 99 * (1 - loaderIncrement pkg) ^ n := by
  induction n with
  | zero => norm_num [fakeProgress]
  | succ k ih =>
      simp only [fakeProgress, ih, pow_succ]
      ring

/-- A package whose first bottle is a single byte: its increment is
`3145728 / 10`, far above `1`. -/
def tinyBottlePkg : GUIPackage :=
  { name := "tiny", full_name := "tiny.sh", desc := "one-byte bottle"
    categories := [], version := "1.0.0", homepage := "https://tiny.sh"
    bottles := [⟨1⟩], state := PackageStates.AVAILABLE
    installed_versions := [], install_progress_percentage := 0, synced := false }

/-- C2 fails as stated: for the one-byte-bottle package the very first tick
overshoots 100 (the sequence is not `< 100`), and the second tick decreases
(the sequence is not strictly increasing). -/
theorem fake_loader_unbounded_cex :
    100 < fakeProgress tinyBottlePkg 1 ∧
    fakeProgress tinyBottlePkg 2 < fakeProgress tinyBottlePkg 1 := by
  norm_num [fakeProgress, loaderIncrement, loaderEta, loaderSize,
    assumedDlSpeedMb, tinyBottlePkg]

/-- C2 (amended): for every package whose per-tick increment lies strictly
between 0 and 1 — every package with no bottles (increment `1/100`), and
any whose first bottle exceeds `assumedDlSpeedMb / 10` bytes — the progress
sequence starting at 1 is strictly increasing on every tick, stays strictly
below 100, and approaches 100 in the limit. -/
theorem fake_loader_progress_amended (pkg : GUIPackage)
    (h0 : 0 < loaderIncrement pkg) (h1 : loaderIncrement pkg < 1) :
    (∀ n : Nat, fakeProgress pkg n < fakeProgress pkg (n + 1)) ∧
    (∀ n : Nat, fakeProgress pkg n < 100) ∧
    (∀ ε : ℚ, 0 < ε → ∃ N : Nat, ∀ n : Nat, N ≤ n →
      100 - fakeProgress pkg n < ε) := by
  have hr0 : 0 < 1 - loaderIncrement pkg := by linarith
  have hr1 : 1 - loaderIncrement pkg < 1 := by linarith
  have hbelow : ∀ n : Nat, fakeProgress pkg n < 100 := by
    intro n
    rw [fakeProgress_closed_form]
    have hpow : 0 < (1 - loaderIncrement pkg) ^ n := pow_pos hr0 n
    nlinarith
  refine ⟨?_, hbelow, ?_⟩
  · intro n
    have := hbelow n
    have : 0 < (100 - fakeProgress pkg n) * loaderIncrement pkg := by
      apply mul_pos <;> linarith
    simp only [fakeProgress]
    linarith
  · intro ε hε
    obtain ⟨N, hN⟩ := exists_pow_lt_of_lt_one (show 0 < ε / 99 by linarith) hr1
    refine ⟨N, fun n hn => ?_⟩
    rw [fakeProgress_closed_form]
    have hmono : (1 - loaderIncrement pkg) ^ n ≤ (1 - loaderIncrement pkg) ^ N :=
      pow_le_pow_of_le_one (le_of_lt hr0) (le_of_lt hr1) hn
    have : 99 * (1 - loaderIncrement pkg) ^ n < 99 * (ε / 99) := by
      have h99 : (0 : ℚ) < 99 := by norm_num
      calc 99 * (1 - loaderIncrement pkg) ^ n
          ≤ 99 * (1 - loaderIncrement pkg) ^ N := by
            exact mul_le_mul_of_nonneg_left hmono (le_of_lt h99)
        _ < 99 * (ε / 99) := by
            exact mul_lt_mul_of_pos_left hN h99
    have h99ε : 99 * (ε / 99) = ε := by ring
    linarith [this]

theorem fake_loader_progress_amended_witness :
    (0 : ℚ) < loaderIncrement pkgA ∧ loaderIncrement pkgA < 1 ∧
    fakeProgress pkgA 0 < fakeProgress pkgA 1 ∧ fakeProgress pkgA 5 < 100 := by
  have h0 : (0 : ℚ) < loaderIncrement pkgA := by
    norm_num [loaderIncrement, loaderEta, loaderSize, assumedDlSpeedMb, pkgA]
  have h1 : loaderIncrement pkgA < 1 := by
    norm_num [loaderIncrement, loaderEta, loaderSize, assumedDlSpeedMb, pkgA]
  have h := fake_loader_progress_amended pkgA h0 h1
  exact ⟨h0, h1, h.1 0, h.2.1 5⟩

/-- C6: the per-tick increment is `1 / (size / assumedDlSpeedMb) / 10` at a
speed of `1024 * 1024 * 3` bytes per second, where `size` is the first
bottle's byte count, or `assumedDlSpeedMb * 10` (increment `1/100` — a
ten-second ETA) when the package has no bottles. -/
theorem loader_increment_formula (pkg : GUIPackage) :
    loaderIncrement pkg = 1 / (loaderSize pkg / assumedDlSpeedMb) / 10 ∧
    assumedDlSpeedMb = 1024 * 1024 * 3 ∧
    (pkg.bottles = [] →
      loaderSize pkg = assumedDlSpeedMb * 10 ∧ loaderIncrement pkg = 1 / 100) ∧
    (∀ (b : Bottle) (bs : List Bottle), pkg.bottles = b :: bs →
      loaderSize pkg = (b.bytes : ℚ)) := by
  refine ⟨rfl, rfl, ?_, ?_⟩
  · intro h
    have hsize : loaderSize pkg = assumedDlSpeedMb * 10 := by
      simp [loaderSize, h]
    refine ⟨hsize, ?_⟩
    rw [loaderIncrement, loaderEta, hsize]
    norm_num [assumedDlSpeedMb]
  · intro b bs h
    simp [loaderSize, h]

theorem loader_increment_formula_witness :
    pkgA.bottles = [] ∧
    loaderSize pkgA = assumedDlSpeedMb * 10 ∧ loaderIncrement pkgA = 1 / 100 :=
  ⟨rfl, (loader_increment_formula pkgA).2.2.1 rfl⟩

/-! ### The install routine (`installPkg`) -/

/-- JavaScript `a || b` on an optional string: the empty string is falsy, so
it falls back to `b` both when `a` is absent and when it is `""`. -/
def jsOrString (a : Option String) (b : String) : String :=
  match a with
  | none => b
  | some s => if s = "" then b else s

/-- The `catch` block's message: `"Unknown Error"` unless the thrown value is
an `Error` (modelled `some msg`), then `message || "unknown"`. -/
def failureMessage (err : Option String) : String :=
  let message := Option.getD err "Unknown Error"
  if message = "" then "unknown" else message

/-- The externally observable outcome of one `installPkg` call: the state
written before the native call, the version the native call received, the
state after the `catch`/`finally`, which analytics event fired, and the final
`install_progress_percentage` written by `finally`. -/
structure InstallOutcome where
  preState : PackageStates
  calledVersion : String
  finalState : PackageStates
  trackedInstall : Bool
  trackedFailure : Option String
  finalProgress : ℚ
deriving DecidableEq

/-- `installPkg(pkg, version?)`: set `UPDATING`/`INSTALLING`, start the fake
loader, `await installPackage(pkg, version || pkg.version)`; on success fire
`trackInstall` and set `INSTALLED`; on a throw (modelled by `res`) fire
`trackInstallFailed` and leave the state alone; `finally` always writes
`install_progress_percentage: 100`. -/
def installPkgRun (pkg : GUIPackage) (version : Option String)
    (res : Except (Option String) Unit) : InstallOutcome :=
  let state := if pkg.state = PackageStates.NEEDS_UPDATE
    then PackageStates.UPDATING else PackageStates.INSTALLING
  let calledVersion := jsOrString version pkg.version
  match res with
  | Except.ok _ =>
      { preState := state, calledVersion := calledVersion
        finalState := PackageStates.INSTALLED, trackedInstall := true
        trackedFailure := none, finalProgress := 100 }
  | Except.error err =>
      { preState := state, calledVersion := calledVersion
        finalState := state, trackedInstall := false
        trackedFailure := some (failureMessage err), finalProgress := 100 }

/-- C5 fails as stated for an explicitly given empty version: `version ||
pkg.version` treats `""` as absent, so the native call receives
`pkg.version` (`"2.0.0"`), not the given `""`. -/
theorem installPkg_empty_version_cex :
    (installPkgRun pkgB (some "") (Except.ok ())).calledVersion ≠ "" ∧
    (installPkgRun pkgB (some "") (Except.ok ())).calledVersion = pkgB.version := by
  decide

/-- C5 (amended): `installPkg` first sets `UPDATING` when the state is
`NEEDS_UPDATE` and `INSTALLING` otherwise, invokes the native call with the
given version when it is non-empty and with `pkg.version` when it is absent
or empty, and on success sets the state to `INSTALLED`. -/
theorem installPkg_transition_amended (pkg : GUIPackage)
    (version : Option String) (res : Except (Option String) Unit) :
    (installPkgRun pkg version res).preState =
      (if pkg.state = PackageStates.NEEDS_UPDATE
        then PackageStates.UPDATING else PackageStates.INSTALLING) ∧
    (installPkgRun pkg version res).calledVersion =
      (match version with
       | none => pkg.version
       | some v => if v = "" then pkg.version else v) ∧
    (res = Except.ok () →
      (installPkgRun pkg version res).finalState = PackageStates.INSTALLED) := by
  cases res with
  | ok u => exact ⟨rfl, rfl, fun _ => rfl⟩
  | error err =>
      refine ⟨rfl, rfl, fun h => ?_⟩
      cases h

theorem installPkg_transition_amended_witness :
    (installPkgRun pkgB (some "3.0.0") (Except.ok ())).finalState =
      PackageStates.INSTALLED :=
  (installPkg_transition_amended pkgB (some "3.0.0") (Except.ok ())).2.2 rfl

/-- C8: when the native install call throws, `installPkg` swallows the
exception: `trackInstallFailed` receives the failure message, the state stays
at the `INSTALLING`/`UPDATING` value written before the call, and `finally`
writes `install_progress_percentage = 100` on the failure path exactly as on
the success path. -/
theorem installPkg_failure_handling (pkg : GUIPackage) (version : Option String)
    (err : Option String) :
    (installPkgRun pkg version (Except.error err)).trackedFailure =
      some (failureMessage err) ∧
    (installPkgRun pkg version (Except.error err)).finalState =
      (installPkgRun pkg version (Except.error err)).preState ∧
    ((installPkgRun pkg version (Except.error err)).preState =
        PackageStates.INSTALLING ∨
      (installPkgRun pkg version (Except.error err)).preState =
        PackageStates.UPDATING) ∧
    (installPkgRun pkg version (Except.error err)).finalProgress = 100 ∧
    (installPkgRun pkg version (Except.ok ())).finalProgress = 100 := by
  refine ⟨rfl, rfl, ?_, rfl, rfl⟩
  by_cases h : pkg.state = PackageStates.NEEDS_UPDATE
  · right
    simp [installPkgRun, h]
  · left
    simp [installPkgRun, h]

/-! ### The store state machine and the search wrapper -/

/-- Modelled from the spec: the fuse.js index built by `new Fuse(guiPkgs,
{ keys: ["name", "full_name", "desc", "categories"] })` — an external
dependency, reflected as the list of documents it indexes. -/
structure FuseIndex where
  docs : List GUIPackage
deriving DecidableEq

/-- Modelled from the spec: fuse.js's fuzzy match over the four configured
keys, reflected as an executable match predicate on those keys.  The claims
about `search` do not depend on the matcher itself. -/
def fuseMatches (term : String) (p : GUIPackage) : Bool :=
  term.isPrefixOf p.name || term.isPrefixOf p.full_name ||
    term.isPrefixOf p.desc || p.categories.any (fun c => term.isPrefixOf c)

/-- A fuse.js search result; `search` reads its `item`. -/
structure FuseResult where
  item : GUIPackage
deriving DecidableEq

/-- Modelled from the spec: `packagesIndex.search(term, { limit })` — the
matching indexed documents, at most `limit` of them. -/
def fuseSearch (f : FuseIndex) (term : String) (limit : Nat) :
    List FuseResult :=
  ((f.docs.filter (fuseMatches term)).take limit).map (fun p => ⟨p⟩)

/-- The closed-over state of one `initPackagesStore()` instance: the
`initialized` flag, the `packages` store value, and `packagesIndex`
(`none` until `init` builds it). -/
structure StoreState where
  initialized : Bool
  packages : List GUIPackage
  index : Option FuseIndex
deriving DecidableEq

/-- The state right after `initPackagesStore()` returns. -/
def freshStore : StoreState :=
  { initialized := false, packages := [], index := none }

/-- One call of `init`: guarded by `if (!initialized)`, which is flipped
synchronously before any fetch; the body fetches the catalog, sets the
packages, builds the index over the catalog records, and cross-references
the installed list (`initPackages`). -/
def initStep (s : StoreState) (catalog : List Package)
    (installedRes : Except String (List InstalledPackage)) : StoreState :=
  if s.initialized then s
  else
    { initialized := true
      packages := initPackages catalog installedRes
      index := some ⟨catalog.map toGUIPackage⟩ }

/-- `search(term, limit)`: `if (!term || !packagesIndex) return []`, else map
`item` over the index's results. -/
def search (s : StoreState) (term : String) (limit : Nat) : List GUIPackage :=
  if term = "" then []
  else
    match s.index with
    | none => []
    | some f => (fuseSearch f term limit).map (fun r => r.item)

/-- `search(term)` with the default `limit = 5`. -/
def searchDefault (s : StoreState) (term : String) : List GUIPackage :=
  search s term 5

/-- C9: `init` is idempotent — a call on an already-initialized store is the
identity, so any call after the first changes nothing: the catalog is fetched
and the index built at most once per store instance. -/
theorem init_idempotent (s : StoreState) (catalog catalog' : List Package)
    (res res' : Except String (List InstalledPackage)) :
    initStep (initStep s catalog res) catalog' res' = initStep s catalog res ∧
    (s.initialized = true → initStep s catalog res = s) := by
  by_cases h : s.initialized
  · constructor
    · simp [initStep, h]
    · intro _
      simp [initStep, h]
  · constructor
    · simp [initStep, h]
    · intro hcontra
      exact absurd hcontra h

theorem init_idempotent_witness :
    initStep (initStep freshStore catalogW (Except.ok installedW)) catalogW
        (Except.error "later") =
      initStep freshStore catalogW (Except.ok installedW) :=
  (init_idempotent (initStep freshStore catalogW (Except.ok installedW))
      catalogW catalogW (Except.error "later") (Except.error "later")).2 rfl

/-- C7: for a non-empty term on a store whose index has been built, `search`
returns only items drawn from the documents the index was built over, at most
`limit` of them, and at most 5 under the default limit. -/
theorem search_results_bounded (s : StoreState) (f : FuseIndex) (term : String)
    (limit : Nat) (hf : s.index = some f) (ht : term ≠ "") :
    (∀ p ∈ search s term limit, p ∈ f.docs) ∧
    (search s term limit).length ≤ limit ∧
    (searchDefault s term).length ≤ 5 := by
  have hmain : ∀ L : Nat,
      (∀ p ∈ search s term L, p ∈ f.docs) ∧ (search s term L).length ≤ L := by
    intro L
    constructor
    · intro p hp
      simp only [search, if_neg ht, hf, List.mem_map] at hp
      obtain ⟨r, hr, rfl⟩ := hp
      simp only [fuseSearch, List.mem_map] at hr
      obtain ⟨q, hq, rfl⟩ := hr
      exact List.mem_of_mem_filter (List.mem_of_mem_take hq)
    · simp only [search, if_neg ht, hf, fuseSearch, List.length_map,
        List.length_take]
      exact le_trans (min_le_left _ _) (le_refl L)
  exact ⟨(hmain limit).1, (hmain limit).2, (hmain 5).2⟩

/-- The store after a successful `init` on the concrete catalog, used to
exercise the search claims. -/
def storeW : StoreState := initStep freshStore catalogW (Except.ok installedW)

theorem search_results_bounded_witness :
    storeW.index = some ⟨catalogW.map toGUIPackage⟩ ∧ "alpha" ≠ "" ∧
    (search storeW "alpha" 3).length ≤ 3 :=
  ⟨rfl, by decide,
    (search_results_bounded storeW ⟨catalogW.map toGUIPackage⟩ "alpha" 3 rfl
        (by decide)).2.1⟩

/-- C10: `search` returns `[]` whenever the term is empty or the index has
not been built yet (before `init`), for every limit. -/
theorem search_empty_guard (s : StoreState) (term : String) (limit : Nat)
    (h : term = "" ∨ s.index = none) :
    search s term limit = [] := by
  rcases h with h | h
  · simp [search, h]
  · by_cases ht : term = ""
    · simp [search, ht]
    · simp [search, ht, h]

theorem search_empty_guard_witness :
    freshStore.index = none ∧ search freshStore "alpha" 7 = [] :=
  ⟨rfl, search_empty_guard freshStore "alpha" 7 (Or.inr rfl)⟩

end Ossapp
